import Mathlib

/-!
Verification development for the `bgpsimulator_rust` repository.

Shallow embedding of the data model and the operations of the simulator:
shared enumerations (`src/shared.rs`), the route validator and its binary
trie (`src/route_validator.rs`), announcements and per-AS policy state
(`src/simulation_engine/announcement.rs`), the default policy extension
(`src/simulation_engine/policy/mod.rs`) together with the ROV and PeerROV
extensions, the propagation engine (`src/simulation_engine/engine.rs`),
the cycle check of `src/as_graphs/as_graph/as_graph.rs`, and the
`LegitimatePrefixOnly` success test
(`src/simulation_framework/scenarios/legitimate_prefix_only.rs`).

Machine integers (u32 ASNs, u8 lengths, u32/u128 addresses) are modelled
as `Nat`; the operations below never overflow their Rust widths, so no
modular reduction is required.  Rust `HashMap`s are modelled as
association lists with insert-or-replace update; `HashSet` iteration
order, which Rust leaves unspecified, is fixed to insertion order.  The
route validator's LRU cache is a pure memoizer of `get_roa_outcome` and
is modelled away.
-/

namespace BGPSim

/-- ASN (u32 in the source). -/
abbrev ASN := Nat

/-- `Relationships` from src/shared.rs. -/
inductive Relationships where
  | Providers
  | Peers
  | Customers
  | Origin
  | Unknown
deriving DecidableEq, Repr

/-- `Relationships::invert` from src/shared.rs. -/
def Relationships.invert : Relationships → Relationships
  | .Providers => .Customers
  | .Customers => .Providers
  | .Peers => .Peers
  | .Origin => .Origin
  | .Unknown => .Unknown

/-- `Timestamps` from src/shared.rs. -/
inductive Timestamps where
  | Victim
  | Attacker
deriving DecidableEq, Repr

/-- `ROAValidity` from src/shared.rs. -/
inductive ROAValidity where
  | Valid
  | Unknown
  | InvalidLength
  | InvalidOrigin
  | InvalidLengthAndOrigin
deriving DecidableEq, Repr

/-- The `repr(u8)` ordinal of a `ROAValidity` (`*validity as u8` in the source). -/
def ROAValidity.ord : ROAValidity → Nat
  | .Valid => 0
  | .Unknown => 1
  | .InvalidLength => 2
  | .InvalidOrigin => 3
  | .InvalidLengthAndOrigin => 4

/-- `ROARouted` from src/shared.rs. -/
inductive ROARouted where
  | Routed
  | Unknown
  | NonRouted
deriving DecidableEq, Repr

/-- `ipnetwork::IpNetwork`: an address (u32 resp. u128, modelled as `Nat`)
together with a prefix length. -/
inductive IpNetwork where
  | V4 (addr : Nat) (len : Nat)
  | V6 (addr : Nat) (len : Nat)
deriving DecidableEq, Repr

/-- The leading `len` bits of address `addr` of width `w`, most significant
first.  This is `RouteValidator::prefix_to_binary` (the first `len`
characters of the binary string of the address), with characters `'0'`/`'1'`
modelled as `false`/`true`. -/
def ipBits (addr w len : Nat) : List Bool :=
  (List.range len).map (fun i => addr.testBit (w - 1 - i))

/-- The binary key of a network: its leading `len` address bits. -/
def IpNetwork.bits : IpNetwork → List Bool
  | .V4 a l => ipBits a 32 l
  | .V6 a l => ipBits a 128 l

/-- The stored length of a network (`IpNetwork::prefix()`). -/
def IpNetwork.len : IpNetwork → Nat
  | .V4 _ l => l
  | .V6 _ l => l

/-- `ROA` from src/route_validator.rs. -/
structure ROA where
  pfx : IpNetwork
  origin : ASN
  max_length : Nat
  ta : Option String
deriving DecidableEq, Repr

/-- `ROA::is_routed`: routed iff the origin is nonzero. -/
def ROA.is_routed (roa : ROA) : Bool :=
  decide (roa.origin ≠ 0)

/-- `ROA::covers_prefix`: same address family, the target's address lies in
the ROA network (`roa_net.contains(prefix_net.ip())`, i.e. the ROA's
leading bits agree with the target address's leading bits), and the
target's length is at least the ROA's length. -/
def ROA.covers (roa : ROA) (p : IpNetwork) : Bool :=
  match roa.pfx, p with
  | .V4 ra rl, .V4 pa pl => decide (ipBits pa 32 rl = ipBits ra 32 rl) && decide (rl ≤ pl)
  | .V6 ra rl, .V6 pa pl => decide (ipBits pa 128 rl = ipBits ra 128 rl) && decide (rl ≤ pl)
  | _, _ => false

/-- `ROA::get_validity` from src/route_validator.rs. -/
def ROA.get_validity (roa : ROA) (p : IpNetwork) (origin : ASN) : ROAValidity :=
  if !roa.covers p then ROAValidity.Unknown
  else
    match decide (p.len ≤ roa.max_length), decide (roa.origin = origin) with
    | true, true => ROAValidity.Valid
    | false, true => ROAValidity.InvalidLength
    | true, false => ROAValidity.InvalidOrigin
    | false, false => ROAValidity.InvalidLengthAndOrigin

/-- `ROA::get_outcome` from src/route_validator.rs. -/
def ROA.get_outcome (roa : ROA) (p : IpNetwork) (origin : ASN) : ROAValidity × ROARouted :=
  (roa.get_validity p origin, if roa.is_routed then ROARouted.Routed else ROARouted.NonRouted)

/-- `ROASNode` from src/route_validator.rs: a binary-trie node holding the
set of ROAs whose binary key ends at this node (the `prefix` field of the
source node is redundant bookkeeping and is omitted). -/
inductive ROASNode where
  | mk (roas : List ROA) (left : Option ROASNode) (right : Option ROASNode)

/-- The empty trie node (`ROASNode::new`). -/
def ROASNode.empty : ROASNode := .mk [] none none

/-- `RouteValidator::insert_roa_at_node`: walk/extend the trie along the
ROA's binary key (`false` = left, `true` = right) and insert the ROA into
the terminal node's set (`HashSet::insert`: no duplicate is added). -/
def ROASNode.insertRoa : ROASNode → List Bool → ROA → ROASNode
  | .mk rs l r, [], roa => .mk (if roa ∈ rs then rs else rs ++ [roa]) l r
  | .mk rs l r, true :: bs, roa =>
    .mk rs l (some (ROASNode.insertRoa (r.getD ROASNode.empty) bs roa))
  | .mk rs l r, false :: bs, roa =>
    .mk rs (some (ROASNode.insertRoa (l.getD ROASNode.empty) bs roa)) r

/-- `RouteValidator::collect_relevant_roas_from_node`: walk the trie along
the target's binary key, collecting at every node on the path the ROAs
that cover the target. -/
def ROASNode.collectRelevant : ROASNode → List Bool → IpNetwork → List ROA
  | .mk rs _ _, [], p => rs.filter (fun roa => roa.covers p)
  | .mk rs _ r, true :: bs, p =>
    rs.filter (fun roa => roa.covers p) ++
      (match r with
       | none => []
       | some child => ROASNode.collectRelevant child bs p)
  | .mk rs l _, false :: bs, p =>
    rs.filter (fun roa => roa.covers p) ++
      (match l with
       | none => []
       | some child => ROASNode.collectRelevant child bs p)

/-- A `RouteValidator` trie built by `add_roa` from the given list of ROAs
(the LRU cache is a pure memoizer and is modelled away). -/
def validatorOf (roas : List ROA) : ROASNode :=
  roas.foldl (fun t roa => t.insertRoa roa.pfx.bits roa) ROASNode.empty

/-- `RouteValidator::get_roa_outcome` from src/route_validator.rs: collect
the covering ROAs; if none, `(Unknown, Unknown)`; otherwise stably sort
the individual outcomes by the validity ordinal and return the first. -/
def get_roa_outcome (root : ROASNode) (p : IpNetwork) (origin : ASN) : ROAValidity × ROARouted :=
  let relevant := root.collectRelevant p.bits p
  if relevant.isEmpty then (ROAValidity.Unknown, ROARouted.Unknown)
  else
    let outcomes := relevant.map (fun roa => roa.get_outcome p origin)
    (outcomes.mergeSort (fun a b => decide (a.1.ord ≤ b.1.ord))).headD
      (ROAValidity.Unknown, ROARouted.Unknown)

/-- `Announcement` from src/simulation_engine/announcement.rs
(the field named `prefix` in the source is called `pfx` here). -/
structure Announcement where
  pfx : IpNetwork
  as_path : List ASN
  next_hop_asn : ASN
  recv_relationship : Relationships
  timestamp : Timestamps
  withdraw : Bool
  bgpsec_next_asn : Option ASN
  bgpsec_as_path : Option (List ASN)
  only_to_customers : Option Bool
  rovpp_blackhole : Option Bool
  rost_ids : Option (List Nat)
deriving DecidableEq, Repr

/-- `Announcement::origin`: the last AS-path element, or the next hop if
the path is empty. -/
def Announcement.origin (a : Announcement) : ASN :=
  a.as_path.getLast?.getD a.next_hop_asn

/-- `Announcement::copy_and_process` from src/simulation_engine/announcement.rs:
for non-withdrawals prepend the sender to the AS path (and to the BGPSec
path if present); always set the next hop, the receive relationship and
`bgpsec_next_asn`. -/
def Announcement.copy_and_process (a : Announcement) (next_hop : ASN)
    (recv : Relationships) : Announcement :=
  let a1 :=
    if a.withdraw then a
    else { a with as_path := next_hop :: a.as_path,
                  bgpsec_as_path := a.bgpsec_as_path.map (fun bp => next_hop :: bp) }
  { a1 with next_hop_asn := next_hop, recv_relationship := recv,
            bgpsec_next_asn := some next_hop }

/-- `AnnInfo` from src/simulation_engine/announcement.rs. -/
structure AnnInfo where
  ann : Announcement
  recv_relationship : Relationships
deriving DecidableEq, Repr

/-- An AS node (`AS` in the source).  Neighbor references are modelled by
their ASNs. -/
structure ASNode where
  asn : ASN
  peers : List ASN
  providers : List ASN
  customers : List ASN
  tier_1 : Bool
  ixp : Bool
deriving DecidableEq, Repr

/-- `AS::get_neighbors` from src/as_graphs/as_graph/as_graph.rs. -/
def ASNode.get_neighbors (a : ASNode) (rel : Relationships) : List ASN :=
  match rel with
  | .Customers => a.customers
  | .Peers => a.peers
  | .Providers => a.providers
  | _ => []

/-- The AS graph: the ASN-to-node dictionary and the computed propagation
rank groups. -/
structure ASGraph where
  as_dict : List (ASN × ASNode)
  propagation_ranks : List (List ASN)
deriving DecidableEq, Repr

/-- Association-list lookup (models `HashMap::get`). -/
def alookup {κ α : Type} [DecidableEq κ] : List (κ × α) → κ → Option α
  | [], _ => none
  | (k, v) :: rest, key => if k = key then some v else alookup rest key

/-- Association-list insert-or-replace (models `HashMap::insert`). -/
def aupsert {κ α : Type} [DecidableEq κ] : List (κ × α) → κ → α → List (κ × α)
  | [], key, v => [(key, v)]
  | (k, w) :: rest, key, v =>
    if k = key then (key, v) :: rest else (k, w) :: aupsert rest key v

/-- Association-list removal (models `HashMap::remove`). -/
def aremove {κ α : Type} [DecidableEq κ] : List (κ × α) → κ → List (κ × α)
  | [], _ => []
  | (k, w) :: rest, key => if k = key then rest else (k, w) :: aremove rest key

/-- Per-AS policy state (`Policy` in src/simulation_engine/announcement.rs).
`SimulationEngine::new` creates every policy through
`PolicyStore::create_policy`, which always uses `Settings::BaseDefense`
(the default BGP extension with no overrides), so the settings tag and the
extension object carry no information and are omitted. -/
structure Policy where
  local_rib : List (IpNetwork × Announcement)
  recv_q : List AnnInfo
  ribs_in : List (ASN × List (IpNetwork × Announcement))
  ribs_out : List (ASN × List (IpNetwork × Announcement))
  asn : ASN
deriving DecidableEq, Repr

/-- `Policy::new` from src/simulation_engine/announcement.rs. -/
def Policy.new (asn : ASN) : Policy :=
  { local_rib := [], recv_q := [], ribs_in := [], ribs_out := [], asn := asn }

/-- Default `PolicyExtension::validate_announcement` from
src/simulation_engine/policy/mod.rs: reject an empty path unless received
at the origin, reject paths containing the receiving AS, reject a
non-empty path whose first element differs from the next hop.
The same body is duplicated verbatim as `default_validate` in
policy_extensions/rov.rs and policy_extensions/peer_rov.rs. -/
def validate_announcement (ann : Announcement) (recv : Relationships)
    (as_obj : ASNode) : Bool :=
  if ann.as_path = [] ∧ recv ≠ Relationships.Origin then false
  else if as_obj.asn ∈ ann.as_path then false
  else
    match ann.as_path.head? with
    | some first => if first ≠ ann.next_hop_asn then false else true
    | none => true

/-- Default `PolicyExtension::should_propagate` from
src/simulation_engine/policy/mod.rs (Gao-Rexford export rules). -/
def should_propagate_ext (ann : Announcement) (recv send : Relationships) : Bool :=
  match recv, send with
  | .Origin, _ => true
  | .Customers, _ => true
  | .Peers, .Customers => true
  | .Providers, .Customers => true
  | _, _ => false

/-- `PolicyExtension::get_gao_rexford_preference`. -/
def get_gao_rexford_preference : Relationships → Nat
  | .Customers => 3
  | .Peers => 2
  | .Providers => 1
  | _ => 0

/-- Default `PolicyExtension::compare_announcements` from
src/simulation_engine/policy/mod.rs: higher Gao-Rexford preference first,
then shorter AS path, then lower next hop. -/
def compare_announcements (ann1 ann2 : Announcement) (rel1 rel2 : Relationships) : Ordering :=
  let pref1 := get_gao_rexford_preference rel1
  let pref2 := get_gao_rexford_preference rel2
  match compare pref2 pref1 with
  | .eq =>
    match compare ann1.as_path.length ann2.as_path.length with
    | .eq => compare ann1.next_hop_asn ann2.next_hop_asn
    | other => other
  | other => other

/-- The ROA validity the ROV family of policies computes for an
announcement: the outcome of `get_roa_outcome` at the announcement's
prefix and its origin (`as_path.last()` or the next hop if empty). -/
def ann_roa_validity (rv : ROASNode) (ann : Announcement) : ROAValidity :=
  (get_roa_outcome rv ann.pfx (ann.as_path.getLast?.getD ann.next_hop_asn)).1

/-- `ROVPolicy::validate_announcement` from policy_extensions/rov.rs:
default validation, then accept `Valid` and `Unknown`, reject the rest.
`rv` is the policy's own `route_validator` trie. -/
def rov_validate (rv : ROASNode) (ann : Announcement) (recv : Relationships)
    (as_obj : ASNode) : Bool :=
  if !validate_announcement ann recv as_obj then false
  else
    match ann_roa_validity rv ann with
    | .Valid => true
    | .Unknown => true
    | _ => false

/-- `PeerROVPolicy::validate_announcement` from
policy_extensions/peer_rov.rs: default validation, then accept only
`Valid` (`Unknown` is rejected, `// Reject unknown in Peer ROV`). -/
def peer_rov_validate (rv : ROASNode) (ann : Announcement) (recv : Relationships)
    (as_obj : ASNode) : Bool :=
  if !validate_announcement ann recv as_obj then false
  else
    match ann_roa_validity rv ann with
    | .Valid => true
    | .Unknown => false
    | _ => false

/-- `Policy::get_relationship` from src/simulation_engine/announcement.rs. -/
def get_relationship (neighbor : ASN) (as_obj : ASNode) : Relationships :=
  if neighbor ∈ as_obj.customers then Relationships.Customers
  else if neighbor ∈ as_obj.peers then Relationships.Peers
  else if neighbor ∈ as_obj.providers then Relationships.Providers
  else Relationships.Unknown

/-- The candidate collection of `Policy::get_best_ann_for_prefix`: every
non-withdrawn route for the given network out of every `ribs_in` entry. -/
def bestCandidates (ribs : List (ASN × List (IpNetwork × Announcement)))
    (net : IpNetwork) : List Announcement :=
  ribs.foldr
    (fun kv acc =>
      match alookup kv.2 net with
      | some ann => if ann.withdraw then acc else ann :: acc
      | none => acc) []

/-- `Policy::get_best_ann_for_prefix` from
src/simulation_engine/announcement.rs: collect the non-withdrawn routes
for the given network out of every `ribs_in` entry, stably sort by the
default comparator and return the first. -/
def Policy.get_best_ann (p : Policy) (net : IpNetwork) (as_obj : ASNode) :
    Option Announcement :=
  let candidates := bestCandidates p.ribs_in net
  if candidates.isEmpty then none
  else
    (candidates.mergeSort (fun a b =>
      decide (compare_announcements a b
        (get_relationship a.next_hop_asn as_obj)
        (get_relationship b.next_hop_asn as_obj) ≠ Ordering.gt))).head?

/-- `Policy::should_propagate` from src/simulation_engine/announcement.rs
(the only-to-customers gate). -/
def Policy.should_propagate (ann : Announcement) (recv : Relationships) : Bool :=
  !(ann.only_to_customers.getD false)
    || decide (recv = Relationships.Customers)
    || decide (recv = Relationships.Origin)

/-- `Policy::receive_ann`: append to the receive queue. -/
def Policy.receive_ann (p : Policy) (ann : Announcement) (recv : Relationships) : Policy :=
  { p with recv_q := p.recv_q ++ [{ ann := ann, recv_relationship := recv }] }

/-- `Policy::seed_ann` from src/simulation_engine/announcement.rs. -/
def Policy.seed_ann (p : Policy) (ann0 : Announcement) : Policy :=
  let ann1 :=
    if ann0.as_path = [] ∧ ann0.withdraw = false then { ann0 with as_path := [p.asn] }
    else ann0
  let ann := { ann1 with next_hop_asn := p.asn,
                         recv_relationship := Relationships.Origin }
  if ann.withdraw then { p with local_rib := aremove p.local_rib ann.pfx }
  else { p with local_rib := aupsert p.local_rib ann.pfx ann }

/-- The policy store (`PolicyStore`), keyed by ASN. -/
abbrev PolicyStore := List (ASN × Policy)

/-- Deliver a batch of `(neighbor, announcement, recv_relationship)`
triples: `receive_ann` on each receiver that has a policy. -/
def deliver (store : PolicyStore) (ds : List (ASN × Announcement × Relationships)) :
    PolicyStore :=
  ds.foldl (fun st d =>
    match alookup st d.1 with
    | some pol => aupsert st d.1 (pol.receive_ann d.2.1 d.2.2)
    | none => st) store

/-- The propagation triples `SimulationEngine::process_asns_for_relationship`
produces for a freshly selected best route: for each relationship the
default extension allows (`should_propagate_to_rel`), for each neighbor of
that kind, strip the AS's own ASN from the front of the path if present
and `copy_and_process` with the inverted relationship.  Each triple is
`(send relationship, neighbor, announcement to enqueue)`. -/
def propagationsFor (as_obj : ASNode) (asn : ASN) (best : Announcement) :
    List (Relationships × ASN × Announcement) :=
  [Relationships.Customers, Relationships.Peers, Relationships.Providers].foldr
    (fun rel acc =>
      if should_propagate_ext best best.recv_relationship rel then
        ((as_obj.get_neighbors rel).map (fun nb =>
          let ann_to_send :=
            if best.as_path.head? = some asn then { best with as_path := best.as_path.tail }
            else best
          (rel, nb, ann_to_send.copy_and_process as_obj.asn rel.invert))) ++ acc
      else acc) []

/-- The `ribs_in` write of `process_asns_for_relationship`:
`ribs_in[ann.next_hop_asn][ann.prefix] = ann`. -/
def ribsInInsert (p : Policy) (ann : Announcement) : Policy :=
  let inner := (alookup p.ribs_in ann.next_hop_asn).getD []
  { p with ribs_in := aupsert p.ribs_in ann.next_hop_asn (aupsert inner ann.pfx ann) }

/-- The local-RIB prepend of `process_asns_for_relationship`: insert the
own ASN at the front of the best route's path when it is not already
there. -/
def bestWithSelf (asn : ASN) (best0 : Announcement) : Announcement :=
  if best0.as_path.head? ≠ some asn then { best0 with as_path := asn :: best0.as_path }
  else best0

/-- The `ribs_out` mirror writes of `process_asns_for_relationship`. -/
def ribsOutInsertAll (ro : List (ASN × List (IpNetwork × Announcement)))
    (props : List (Relationships × ASN × Announcement)) :
    List (ASN × List (IpNetwork × Announcement)) :=
  props.foldl (fun r d =>
    aupsert r d.2.1 (aupsert ((alookup r d.2.1).getD []) d.2.2.pfx d.2.2)) ro

/-- The tail of `process_asns_for_relationship` once a best route exists:
prepend the own ASN to the path if absent (`bestWithSelf`), store the
result in the local RIB, and if the gates allow, mirror the propagation
copies into `ribs_out` and enqueue them at the neighbors. -/
def processValidBest (asn : ASN) (as_obj : ASNode) (store : PolicyStore)
    (ai : AnnInfo) (pol1 : Policy) (best0 : Announcement) : PolicyStore :=
  if Policy.should_propagate (bestWithSelf asn best0) ai.recv_relationship then
    deliver
      (aupsert store asn
        { pol1 with
          local_rib := aupsert pol1.local_rib ai.ann.pfx (bestWithSelf asn best0),
          ribs_out := ribsOutInsertAll pol1.ribs_out
            (propagationsFor as_obj asn (bestWithSelf asn best0)) })
      ((propagationsFor as_obj asn (bestWithSelf asn best0)).map
        (fun d => (d.2.1, d.2.2, d.1.invert)))
  else
    aupsert store asn
      { pol1 with local_rib := aupsert pol1.local_rib ai.ann.pfx (bestWithSelf asn best0) }

/-- Processing of one queued `AnnInfo` at one AS, following the body of
`SimulationEngine::process_asns_for_relationship`
(src/simulation_engine/engine.rs): validate, write into `ribs_in`,
recompute the best route, then `processValidBest`. -/
def processAnnInfo (asn : ASN) (as_obj : ASNode) (store : PolicyStore)
    (ai : AnnInfo) : PolicyStore :=
  match alookup store asn with
  | none => store
  | some pol =>
    if validate_announcement ai.ann ai.recv_relationship as_obj then
      match (ribsInInsert pol ai.ann).get_best_ann ai.ann.pfx as_obj with
      | some best0 => processValidBest asn as_obj store ai (ribsInInsert pol ai.ann) best0
      | none => aupsert store asn (ribsInInsert pol ai.ann)
    else store

/-- Processing of one AS in a phase: drain its receive queue, then process
the drained announcements in FIFO order. -/
def processAS (g : ASGraph) (store : PolicyStore) (asn : ASN) : PolicyStore :=
  match alookup g.as_dict asn with
  | none => store
  | some as_obj =>
    match alookup store asn with
    | none => store
    | some pol =>
      let anns := pol.recv_q
      let store1 := aupsert store asn { pol with recv_q := [] }
      anns.foldl (processAnnInfo asn as_obj) store1

/-- Process a list of ASes in order. -/
def processASNs (g : ASGraph) (store : PolicyStore) (asns : List ASN) : PolicyStore :=
  asns.foldl (processAS g) store

/-- `SimulationEngine::propagate_round`: to-providers phase (rank groups
in reverse order), to-peers phase (all ASes), to-customers phase (rank
groups in order). -/
def propagate_round (g : ASGraph) (store : PolicyStore) : PolicyStore :=
  let s1 := g.propagation_ranks.reverse.foldl (fun s grp => processASNs g s grp) store
  let s2 := processASNs g s1 (g.as_dict.map Prod.fst)
  g.propagation_ranks.foldl (fun s grp => processASNs g s grp) s2

/-- `SimulationEngine::run`: the given number of propagation rounds. -/
def run (g : ASGraph) (store : PolicyStore) : Nat → PolicyStore
  | 0 => store
  | n + 1 => run g (propagate_round g store) n

/-- The propagation triples of the initial propagation pass
(`SimulationEngine::propagate_seeded_announcements`) for one seeded
announcement: every relationship, every neighbor, no export gates. -/
def seedPropagationsFor (as_obj : ASNode) (asn : ASN) (ann : Announcement) :
    List (ASN × Announcement × Relationships) :=
  [Relationships.Customers, Relationships.Peers, Relationships.Providers].foldr
    (fun rel acc =>
      ((as_obj.get_neighbors rel).map (fun nb =>
        let a1 :=
          if ann.as_path.head? = some asn then { ann with as_path := ann.as_path.tail }
          else ann
        (nb, a1.copy_and_process as_obj.asn rel.invert, rel.invert))) ++ acc) []

/-- `SimulationEngine::propagate_seeded_announcements`: for each AS with a
non-empty local RIB, enqueue a processed copy of each of its local-RIB
routes at every neighbor. -/
def propagate_seeded (g : ASGraph) (store : PolicyStore) : PolicyStore :=
  let asns_with := (store.filter (fun kp => !kp.2.local_rib.isEmpty)).map Prod.fst
  asns_with.foldl (fun st asn =>
    match alookup g.as_dict asn with
    | none => st
    | some as_obj =>
      match alookup st asn with
      | none => st
      | some pol =>
        deliver st (pol.local_rib.foldr
          (fun kv acc => seedPropagationsFor as_obj asn kv.2 ++ acc) [])) store

/-- `SimulationEngine::new`: one default policy per AS of the graph
(`PolicyStore::create_policy` is insert-if-absent). -/
def engineNew (g : ASGraph) : PolicyStore :=
  g.as_dict.foldl (fun st kp =>
    match alookup st kp.1 with
    | some _ => st
    | none => st ++ [(kp.1, Policy.new kp.1)]) []

/-- Clearing of one policy in `SimulationEngine::setup`. -/
def clearPolicy (p : Policy) : Policy :=
  { p with local_rib := [], recv_q := [], ribs_in := [], ribs_out := [] }

/-- `SimulationEngine::setup`: clear all policies, seed the initial
announcements at their origins, then run the initial propagation pass. -/
def setup (g : ASGraph) (store : PolicyStore) (seeds : List (ASN × Announcement)) :
    PolicyStore :=
  let cleared := store.map (fun kp => (kp.1, clearPolicy kp.2))
  let seeded := seeds.foldl (fun st s =>
    match alookup st s.1 with
    | some pol => aupsert st s.1 (pol.seed_ann s.2)
    | none => st) cleared
  propagate_seeded g seeded

/-- `ASGraph::check_for_cycles` from src/as_graphs/as_graph/as_graph.rs:
walk the node list and fail on an AS that lists itself as provider or as
customer. -/
def check_for_cycles : List (ASN × ASNode) → Except String Unit
  | [] => Except.ok ()
  | kp :: rest =>
    if kp.2.asn ∈ kp.2.providers then
      Except.error (toString kp.2.asn ++ " has itself as provider")
    else if kp.2.asn ∈ kp.2.customers then
      Except.error (toString kp.2.asn ++ " has itself as customer")
    else check_for_cycles rest

/-- `ASGraph::check_for_cycles` applied to a graph's node dictionary. -/
def ASGraph.check_for_cycles (g : ASGraph) : Except String Unit :=
  BGPSim.check_for_cycles g.as_dict

/-- The prefix 10.0.0.0/24 of the `LegitimatePrefixOnly` scenario
(10.0.0.0 is 167772160). -/
def legitimateNet : IpNetwork := IpNetwork.V4 167772160 24

/-- `LegitimatePrefixOnly::is_successful` from
src/simulation_framework/scenarios/legitimate_prefix_only.rs: the number
of policies holding 10.0.0.0/24 in their local RIB, divided by the number
of ASes in the graph, must exceed 0.8.  The source compares
`has_routes as f64 / total_ases as f64 > 0.8`; the integer comparison
`4 * total < 5 * has` below agrees with that f64 comparison for every
graph with fewer than 2^50 ASes (and in particular on all inputs the
simulator can represent). -/
def is_successful (g : ASGraph) (store : PolicyStore) : Bool :=
  let has_routes := (store.filter
    (fun kp => (alookup kp.2.local_rib legitimateNet).isSome)).length
  let total_ases := g.as_dict.length
  decide (4 * total_ases < 5 * has_routes)

/-! Concrete inputs used by the witnesses and counterexamples below. -/

/-- A concrete announcement with all optional fields absent. -/
def mkAnn (p : IpNetwork) (path : List ASN) (nh : ASN) (recv : Relationships)
    (wd : Bool) : Announcement :=
  { pfx := p, as_path := path, next_hop_asn := nh, recv_relationship := recv,
    timestamp := Timestamps.Victim, withdraw := wd, bgpsec_next_asn := none,
    bgpsec_as_path := none, only_to_customers := none, rovpp_blackhole := none,
    rost_ids := none }

/-- AS 1 of the three-node customer-provider cycle 1 → 2 → 3 → 1. -/
def cycAs1 : ASNode := { asn := 1, peers := [], providers := [3], customers := [2],
                         tier_1 := false, ixp := false }

/-- AS 2 of the cycle. -/
def cycAs2 : ASNode := { asn := 2, peers := [], providers := [1], customers := [3],
                         tier_1 := false, ixp := false }

/-- AS 3 of the cycle. -/
def cycAs3 : ASNode := { asn := 3, peers := [], providers := [2], customers := [1],
                         tier_1 := false, ixp := false }

/-- A graph whose customer-provider subgraph is the directed cycle
1 → 2 → 3 → 1, with no self-loop. -/
def cycGraph : ASGraph := { as_dict := [(1, cycAs1), (2, cycAs2), (3, cycAs3)],
                            propagation_ranks := [] }

/-- An isolated AS used as the receiving AS of the pure validation claims. -/
def soloAs : ASNode := { asn := 1, peers := [], providers := [], customers := [2],
                         tier_1 := false, ixp := false }

/-- A withdrawal with an empty AS path. -/
def c5Ann : Announcement := mkAnn legitimateNet [] 4 Relationships.Origin true

/-- A non-withdrawn announcement from neighbor 2 that passes default
validation at AS 1. -/
def c6Ann : Announcement := mkAnn legitimateNet [2] 2 Relationships.Customers false

/-- A withdrawal whose `bgpsec_next_asn` is absent. -/
def c7Ann : Announcement := mkAnn legitimateNet [7] 7 Relationships.Origin true

/-- A fresh default policy for AS 10. -/
def c9Pol : Policy := Policy.new 10

/-- A non-withdrawn announcement with an empty AS path, as a scenario
seeds it. -/
def c9Ann : Announcement := mkAnn legitimateNet [] 0 Relationships.Origin false

/-- An isolated AS node for the five-node success-rate graph. -/
def soloNode (a : ASN) : ASNode :=
  { asn := a, peers := [], providers := [], customers := [], tier_1 := false, ixp := false }

/-- A five-AS graph. -/
def c8Graph : ASGraph :=
  { as_dict := [(1, soloNode 1), (2, soloNode 2), (3, soloNode 3),
                (4, soloNode 4), (5, soloNode 5)],
    propagation_ranks := [] }

/-- A policy for AS `a` holding 10.0.0.0/24 in its local RIB. -/
def polWithRoute (a : ASN) : Policy :=
  { Policy.new a with
      local_rib := [(legitimateNet, mkAnn legitimateNet [a] a Relationships.Origin false)] }

/-- A store in which exactly 4 of the 5 ASes hold 10.0.0.0/24. -/
def c8Store : PolicyStore :=
  [(1, polWithRoute 1), (2, polWithRoute 2), (3, polWithRoute 3),
   (4, polWithRoute 4), (5, Policy.new 5)]

/-- A store in which all 5 ASes hold 10.0.0.0/24. -/
def c8AllStore : PolicyStore :=
  [(1, polWithRoute 1), (2, polWithRoute 2), (3, polWithRoute 3),
   (4, polWithRoute 4), (5, polWithRoute 5)]

/-- A best route received from a peer. -/
def c1Best : Announcement := mkAnn legitimateNet [1, 9] 9 Relationships.Peers false

/-- The announcement AS 1 sends to customer 2 for `c1Best`. -/
def c1Sent : Announcement :=
  { pfx := legitimateNet, as_path := [1, 9], next_hop_asn := 1,
    recv_relationship := Relationships.Providers, timestamp := Timestamps.Victim,
    withdraw := false, bgpsec_next_asn := some 1, bgpsec_as_path := none,
    only_to_customers := none, rovpp_blackhole := none, rost_ids := none }

/-- The delivery triple `propagationsFor soloAs 1 c1Best` produces. -/
def c1Deliv : Relationships × ASN × Announcement := (Relationships.Customers, 2, c1Sent)

/-- A single-AS graph. -/
def c2Graph : ASGraph := { as_dict := [(1, soloNode 1)], propagation_ranks := [[1]] }

/-- A seeded announcement whose AS path begins with the seeding ASN but
also contains it later: `[1, 3, 1]`. -/
def c2BadAnn : Announcement := mkAnn legitimateNet [1, 3, 1] 1 Relationships.Origin false

/-- A two-AS provider-customer chain: 1 is the provider of 2. -/
def c2ChainGraph : ASGraph :=
  { as_dict := [(1, { asn := 1, peers := [], providers := [], customers := [2],
                      tier_1 := true, ixp := false }),
                (2, { asn := 2, peers := [], providers := [1], customers := [],
                      tier_1 := false, ixp := false })],
    propagation_ranks := [[1], [2]] }

/-- A well-formed seed at AS 2 of the chain graph. -/
def c2GoodAnn : Announcement := mkAnn legitimateNet [] 2 Relationships.Origin false

/-- The ROA of the C4 witness: 10.0.0.0/24, origin 777, max length 24. -/
def c4Roa : ROA := { pfx := legitimateNet, origin := 777, max_length := 24, ta := none }

/-- The subprefix 10.0.0.0/25. -/
def c4SubNet : IpNetwork := IpNetwork.V4 167772160 25

end BGPSim

/-! ## Helper lemmas -/

namespace BGPSim

theorem alookup_mem {κ α : Type} [DecidableEq κ] {l : List (κ × α)} {k : κ} {v : α}
    (h : alookup l k = some v) : (k, v) ∈ l := by
  induction l with
  | nil => simp [alookup] at h
  | cons kv rest ih =>
    obtain ⟨k1, v1⟩ := kv
    by_cases hk : k1 = k
    · subst hk
      simp [alookup] at h
      subst h
      exact List.mem_cons_self _ _
    · simp [alookup, hk] at h
      exact List.mem_cons_of_mem _ (ih h)

theorem mem_aupsert {κ α : Type} [DecidableEq κ] {l : List (κ × α)} {key : κ} {val : α}
    {kv : κ × α} (h : kv ∈ aupsert l key val) : kv = (key, val) ∨ kv ∈ l := by
  induction l with
  | nil => simp [aupsert] at h; simp [h]
  | cons kw rest ih =>
    obtain ⟨k1, v1⟩ := kw
    by_cases hk : k1 = key
    · subst hk
      simp [aupsert] at h
      rcases h with h | h
      · left; simp [h]
      · right; exact List.mem_cons_of_mem _ h
    · simp [aupsert, hk] at h
      rcases h with h | h
      · right; simp [h]
      · rcases ih h with h1 | h1
        · left; exact h1
        · right; exact List.mem_cons_of_mem _ h1

theorem mem_aremove {κ α : Type} [DecidableEq κ] {l : List (κ × α)} {key : κ}
    {kv : κ × α} (h : kv ∈ aremove l key) : kv ∈ l := by
  induction l with
  | nil => simp [aremove] at h
  | cons kw rest ih =>
    obtain ⟨k1, v1⟩ := kw
    by_cases hk : k1 = key
    · subst hk
      simp [aremove] at h
      exact List.mem_cons_of_mem _ h
    · simp [aremove, hk] at h
      rcases h with h | h
      · simp [h]
      · exact List.mem_cons_of_mem _ (ih h)

theorem alookup_aupsert_self {κ α : Type} [DecidableEq κ] (l : List (κ × α)) (key : κ)
    (val : α) : alookup (aupsert l key val) key = some val := by
  induction l with
  | nil => simp [aupsert, alookup]
  | cons kw rest ih =>
    obtain ⟨k1, v1⟩ := kw
    by_cases hk : k1 = key
    · subst hk; simp [aupsert, alookup]
    · simp [aupsert, alookup, hk, ih]

theorem aupsert_idem {κ α : Type} [DecidableEq κ] (l : List (κ × α)) (key : κ)
    (val : α) : aupsert (aupsert l key val) key val = aupsert l key val := by
  induction l with
  | nil => simp [aupsert]
  | cons kw rest ih =>
    obtain ⟨k1, v1⟩ := kw
    by_cases hk : k1 = key
    · subst hk; simp [aupsert]
    · simp [aupsert, hk, ih]

theorem foldl_preserve {σ β : Type} {P : σ → Prop} {f : σ → β → σ}
    (hf : ∀ s b, P s → P (f s b)) :
    ∀ (l : List β) (s : σ), P s → P (l.foldl f s)
  | [], _, h => h
  | b :: bs, s, h => foldl_preserve hf bs (f s b) (hf s b h)

theorem foldl_preserve_mem {σ β : Type} {P : σ → Prop} {f : σ → β → σ} :
    ∀ (l : List β), (∀ s b, b ∈ l → P s → P (f s b)) → ∀ s, P s → P (l.foldl f s)
  | [], _, _, h => h
  | b :: bs, hf, s, h =>
    foldl_preserve_mem bs (fun s1 b1 hb => hf s1 b1 (List.mem_cons_of_mem _ hb)) (f s b)
      (hf s b (List.mem_cons_self _ _) h)

end BGPSim

/-! ## Claim theorems: pure-function claims -/

namespace BGPSim

/-- C3: the claim says `check_for_cycles` errors exactly on customer-provider
cycles, a multi-node cycle included.  The implementation in
src/as_graphs/as_graph/as_graph.rs only rejects self-loops: on the concrete
three-node customer-provider cycle 1 → 2 → 3 → 1 (which has no self-loop)
it returns `Ok(())`, contradicting the spec's DFS description, the sibling
implementation in src/as_graph.rs, and the repository's own
`test_cycle_detection`. -/
theorem c3_cycle_undetected :
    (2 ∈ cycAs1.customers ∧ 3 ∈ cycAs2.customers ∧ 1 ∈ cycAs3.customers ∧
     3 ∈ cycAs1.providers ∧ 1 ∈ cycAs2.providers ∧ 2 ∈ cycAs3.providers ∧
     cycAs1.asn ∉ cycAs1.providers ∧ cycAs1.asn ∉ cycAs1.customers ∧
     cycAs2.asn ∉ cycAs2.providers ∧ cycAs2.asn ∉ cycAs2.customers ∧
     cycAs3.asn ∉ cycAs3.providers ∧ cycAs3.asn ∉ cycAs3.customers) ∧
    cycGraph.check_for_cycles = Except.ok () :=
  ⟨by decide, rfl⟩

/-- C5 counterexample: a withdrawal with an empty AS path received with
`recv_rel = Customers` IS rejected by the default validation — the code has
no withdrawal exception for check (a). -/
theorem c5_counterexample :
    c5Ann.withdraw = true ∧ c5Ann.as_path = [] ∧
    validate_announcement c5Ann Relationships.Customers soloAs = false :=
  ⟨rfl, rfl, rfl⟩

/-- C5 (amended): the default validation rejects an announcement iff
(a) its AS path is empty and the receive relationship is not Origin, or
(b) the receiving AS's ASN occurs in the AS path, or (c) the path is
non-empty and its first element differs from the next hop — with no
exception for withdrawals. -/
theorem c5_validate_iff (ann : Announcement) (recv : Relationships) (as_obj : ASNode) :
    validate_announcement ann recv as_obj = false ↔
      (ann.as_path = [] ∧ recv ≠ Relationships.Origin) ∨
      as_obj.asn ∈ ann.as_path ∨
      (ann.as_path ≠ [] ∧ ann.as_path.head? ≠ some ann.next_hop_asn) := by
  unfold validate_announcement
  cases hp : ann.as_path with
  | nil =>
    by_cases ho : recv = Relationships.Origin <;> simp [hp, ho]
  | cons f rest =>
    by_cases hm : as_obj.asn ∈ f :: rest
    · simp [hp, hm]
    · rw [List.mem_cons, not_or] at hm
      obtain ⟨hm1, hm2⟩ := hm
      by_cases hf : f = ann.next_hop_asn
      · subst hf
        simp [hp, hm1, hm2]
      · simp [hp, hm1, hm2, hf]

/-- C6 counterexample: an announcement that passes default validation and
whose ROA validity is Unknown is rejected by PeerROV even though the
receive relationship is Customers, not Peers. -/
theorem c6_counterexample :
    validate_announcement c6Ann Relationships.Customers soloAs = true ∧
    ann_roa_validity ROASNode.empty c6Ann = ROAValidity.Unknown ∧
    peer_rov_validate ROASNode.empty c6Ann Relationships.Customers soloAs = false :=
  ⟨rfl, rfl, rfl⟩

/-- C6 (amended): PeerROV rejects every announcement whose ROA validity is
Unknown, for every receive relationship; on announcements whose validity is
not Unknown it agrees with ROV. -/
theorem c6_peer_rov_rejects_unknown (rv : ROASNode) (ann : Announcement)
    (recv : Relationships) (as_obj : ASNode)
    (hv : validate_announcement ann recv as_obj = true) :
    (ann_roa_validity rv ann = ROAValidity.Unknown →
      peer_rov_validate rv ann recv as_obj = false) ∧
    (ann_roa_validity rv ann ≠ ROAValidity.Unknown →
      peer_rov_validate rv ann recv as_obj = rov_validate rv ann recv as_obj) := by
  constructor
  · intro hu
    simp [peer_rov_validate, hv, hu]
  · intro hu
    simp only [peer_rov_validate, rov_validate, hv, Bool.not_true, Bool.false_eq_true,
      if_false]
    cases h : ann_roa_validity rv ann <;> simp_all

/-- C6 witness: the amended theorem applied at the concrete inputs of the
counterexample configuration. -/
theorem c6_witness :
    validate_announcement c6Ann Relationships.Customers soloAs = true ∧
    peer_rov_validate ROASNode.empty c6Ann Relationships.Customers soloAs = false :=
  ⟨rfl, (c6_peer_rov_rejects_unknown ROASNode.empty c6Ann Relationships.Customers soloAs
    rfl).1 rfl⟩

/-- C7 counterexample: `copy_and_process` of a withdrawal overwrites
`bgpsec_next_asn` with the sender, so the result is NOT equal to the input
in that field. -/
theorem c7_counterexample :
    c7Ann.withdraw = true ∧ c7Ann.bgpsec_next_asn = none ∧
    (c7Ann.copy_and_process 5 Relationships.Customers).bgpsec_next_asn = some 5 :=
  ⟨rfl, rfl, rfl⟩

/-- C7 (amended): for a withdrawal, `copy_and_process(s, r)` preserves every
field except `next_hop_asn` (set to s), `recv_relationship` (set to r) and
`bgpsec_next_asn` (set to Some s). -/
theorem c7_withdraw_copy (a : Announcement) (s : ASN) (r : Relationships)
    (h : a.withdraw = true) :
    a.copy_and_process s r =
      { a with next_hop_asn := s, recv_relationship := r, bgpsec_next_asn := some s } := by
  simp [Announcement.copy_and_process, h]

/-- C7 witness: the amended theorem at a concrete withdrawal. -/
theorem c7_witness :
    c7Ann.withdraw = true ∧
    c7Ann.copy_and_process 5 Relationships.Customers =
      { c7Ann with next_hop_asn := 5, recv_relationship := Relationships.Customers,
                   bgpsec_next_asn := some 5 } :=
  ⟨rfl, c7_withdraw_copy c7Ann 5 Relationships.Customers rfl⟩

/-- C9: seeding the same non-withdrawn announcement twice leaves the local
RIB as after the first seed, and the stored entry has path `[self.asn]`
when the seed's path was empty, next hop `self.asn`, and receive
relationship Origin. -/
theorem c9_seed_ann_idempotent (p : Policy) (a : Announcement) (h : a.withdraw = false) :
    ((p.seed_ann a).seed_ann a).local_rib = (p.seed_ann a).local_rib ∧
    ∃ e, alookup (p.seed_ann a).local_rib a.pfx = some e ∧
      (a.as_path = [] → e.as_path = [p.asn]) ∧
      e.next_hop_asn = p.asn ∧ e.recv_relationship = Relationships.Origin := by
  by_cases hp : a.as_path = []
  · simp only [Policy.seed_ann, hp, h, and_self, if_true, true_and]
    refine ⟨aupsert_idem _ _ _, _, alookup_aupsert_self _ _ _, fun _ => rfl, rfl, rfl⟩
  · simp only [Policy.seed_ann, hp, h, false_and, if_false]
    refine ⟨aupsert_idem _ _ _, _, alookup_aupsert_self _ _ _, fun hc => hc.elim,
      rfl, rfl⟩

/-- C9 witness: the theorem at a fresh policy and a concrete empty-path
seed. -/
theorem c9_witness :
    c9Ann.withdraw = false ∧
    (((c9Pol.seed_ann c9Ann).seed_ann c9Ann).local_rib = (c9Pol.seed_ann c9Ann).local_rib ∧
     ∃ e, alookup (c9Pol.seed_ann c9Ann).local_rib c9Ann.pfx = some e ∧
       (c9Ann.as_path = [] → e.as_path = [c9Pol.asn]) ∧
       e.next_hop_asn = c9Pol.asn ∧ e.recv_relationship = Relationships.Origin) :=
  ⟨rfl, c9_seed_ann_idempotent c9Pol c9Ann rfl⟩

/-- C8 counterexample: with 4 of 5 ASes holding 10.0.0.0/24 — exactly 80% —
`is_successful` returns false, because the source compares with a strict
`> 0.8`. -/
theorem c8_counterexample :
    (c8Store.filter (fun kp => (alookup kp.2.local_rib legitimateNet).isSome)).length = 4 ∧
    c8Graph.as_dict.length = 5 ∧
    is_successful c8Graph c8Store = false :=
  ⟨rfl, rfl, rfl⟩

/-- C8 (amended): `is_successful` returns true iff STRICTLY more than 80%
of the graph's ASes hold 10.0.0.0/24 in their local RIB. -/
theorem c8_success_iff_fraction (g : ASGraph) (store : PolicyStore)
    (h : 0 < g.as_dict.length) :
    is_successful g store = true ↔
      (4 : ℚ) / 5 <
        (((store.filter (fun kp => (alookup kp.2.local_rib legitimateNet).isSome)).length : ℚ)
          / (g.as_dict.length : ℚ)) := by
  unfold is_successful
  simp only [decide_eq_true_eq]
  rw [div_lt_div_iff₀ (by norm_num) (by exact_mod_cast h)]
  norm_cast
  omega

/-- C8 witness: the amended theorem at the five-AS graph with all five ASes
holding the route. -/
theorem c8_witness :
    0 < c8Graph.as_dict.length ∧
    (is_successful c8Graph c8AllStore = true ↔
      (4 : ℚ) / 5 <
        (((c8AllStore.filter
            (fun kp => (alookup kp.2.local_rib legitimateNet).isSome)).length : ℚ)
          / (c8Graph.as_dict.length : ℚ))) :=
  ⟨by decide, c8_success_iff_fraction c8Graph c8AllStore (by decide)⟩

/-- C1: the default `should_propagate` implements the Gao-Rexford export
table (routes received from Origin or Customers go everywhere; routes
received from Peers or Providers go to Customers only), and consequently
every propagation triple the engine's
`process_asns_for_relationship` generates for a best route received from a
peer or a provider uses the send relationship Customers. -/
theorem c1_gao_rexford_export :
    (∀ (ann : Announcement) (recv send : Relationships),
      ((recv = Relationships.Origin ∨ recv = Relationships.Customers) →
        should_propagate_ext ann recv send = true) ∧
      (((recv = Relationships.Peers ∨ recv = Relationships.Providers) ∧
        send = Relationships.Customers) →
        should_propagate_ext ann recv send = true) ∧
      (((recv = Relationships.Peers ∨ recv = Relationships.Providers) ∧
        (send = Relationships.Peers ∨ send = Relationships.Providers)) →
        should_propagate_ext ann recv send = false))
    ∧ (∀ (as_obj : ASNode) (asn : ASN) (best : Announcement)
        (d : Relationships × ASN × Announcement),
        d ∈ propagationsFor as_obj asn best →
        (best.recv_relationship = Relationships.Peers ∨
         best.recv_relationship = Relationships.Providers) →
        d.1 = Relationships.Customers) := by
  constructor
  · intro ann recv send
    refine ⟨?_, ?_, ?_⟩
    · rintro (rfl | rfl) <;> rfl
    · rintro ⟨(rfl | rfl), rfl⟩ <;> rfl
    · rintro ⟨(rfl | rfl), (rfl | rfl)⟩ <;> rfl
  · intro as_obj asn best d hd hrecv
    have h1 : should_propagate_ext best best.recv_relationship Relationships.Peers = false := by
      rcases hrecv with h | h <;> rw [h] <;> rfl
    have h2 : should_propagate_ext best best.recv_relationship Relationships.Providers = false := by
      rcases hrecv with h | h <;> rw [h] <;> rfl
    simp only [propagationsFor, List.foldr_cons, List.foldr_nil, h1, h2,
      Bool.false_eq_true, if_false, List.append_nil] at hd
    by_cases hc : should_propagate_ext best best.recv_relationship Relationships.Customers = true
    · simp only [hc, if_true] at hd
      rcases List.mem_map.mp hd with ⟨nb, _, rfl⟩
      rfl
    · simp [hc] at hd

/-- C1 witness: the engine part of the theorem at a concrete AS with one
customer and a best route received from a peer. -/
theorem c1_witness :
    c1Deliv ∈ propagationsFor soloAs 1 c1Best ∧
    c1Deliv.1 = Relationships.Customers :=
  ⟨by decide, c1_gao_rexford_export.2 soloAs 1 c1Best c1Deliv (by decide) (Or.inl rfl)⟩

end BGPSim

/-! ## Engine invariant machinery -/

namespace BGPSim

/-- Every candidate returned by `bestCandidates` is a non-withdrawn
announcement stored in some `ribs_in` entry for the queried network. -/
theorem mem_bestCandidates {ribs : List (ASN × List (IpNetwork × Announcement))}
    {net : IpNetwork} {b : Announcement} (h : b ∈ bestCandidates ribs net) :
    b.withdraw = false ∧ ∃ nb m, (nb, m) ∈ ribs ∧ (net, b) ∈ m := by
  induction ribs with
  | nil => simp [bestCandidates] at h
  | cons kv rest ih =>
    rw [bestCandidates, List.foldr_cons] at h
    cases hl : alookup kv.2 net with
    | none =>
      simp only [hl] at h
      rcases ih h with ⟨hw, nb, m, hm, hpm⟩
      exact ⟨hw, nb, m, List.mem_cons_of_mem _ hm, hpm⟩
    | some ann =>
      simp only [hl] at h
      by_cases hw : ann.withdraw = true
      · rw [if_pos hw] at h
        rcases ih h with ⟨hw2, nb, m, hm, hpm⟩
        exact ⟨hw2, nb, m, List.mem_cons_of_mem _ hm, hpm⟩
      · rw [if_neg hw] at h
        rcases List.mem_cons.mp h with rfl | h2
        · exact ⟨Bool.not_eq_true _ ▸ hw, kv.1, kv.2, by simp, alookup_mem hl⟩
        · rcases ih h2 with ⟨hw2, nb, m, hm, hpm⟩
          exact ⟨hw2, nb, m, List.mem_cons_of_mem _ hm, hpm⟩

/-- A returned best route is one of the candidates. -/
theorem get_best_ann_mem {p : Policy} {net : IpNetwork} {as_obj : ASNode}
    {b : Announcement} (h : p.get_best_ann net as_obj = some b) :
    b ∈ bestCandidates p.ribs_in net := by
  unfold Policy.get_best_ann at h
  by_cases he : (bestCandidates p.ribs_in net).isEmpty = true
  · rw [if_pos he] at h
    exact absurd h (by simp)
  · rw [if_neg he] at h
    exact List.mem_mergeSort.mp (List.mem_of_mem_head? (Option.mem_def.mpr h))

/-- A predicate holding of every entry of a policy store. -/
def storeAll (Q : ASN × Policy → Prop) (store : PolicyStore) : Prop :=
  ∀ kp ∈ store, Q kp

theorem storeAll_aupsert {Q : ASN × Policy → Prop} {store : PolicyStore} {k : ASN}
    {q : Policy} (hs : storeAll Q store) (hq : Q (k, q)) :
    storeAll Q (aupsert store k q) := by
  intro kp hkp
  rcases mem_aupsert hkp with rfl | hkp
  · exact hq
  · exact hs kp hkp

theorem storeAll_deliver {Q : ASN × Policy → Prop}
    (hrecv : ∀ k p ann rel, Q (k, p) → Q (k, p.receive_ann ann rel))
    {store : PolicyStore} (hs : storeAll Q store)
    (ds : List (ASN × Announcement × Relationships)) :
    storeAll Q (deliver store ds) := by
  unfold deliver
  refine foldl_preserve ?_ ds store hs
  intro st d h
  cases hl : alookup st d.1 with
  | none => exact h
  | some pol => exact storeAll_aupsert h (hrecv _ _ _ _ (h _ (alookup_mem hl)))

/-- Generic preservation through `processAnnInfo`: a per-entry predicate
stable under queue appends and `ribs_out` rewrites is preserved, provided
the `ribs_in` write and the local-RIB write preserve it. -/
theorem processAnnInfo_preserve {Q : ASN × Policy → Prop}
    (hrecv : ∀ (k : ASN) (p : Policy) (ann : Announcement) (rel : Relationships),
      Q (k, p) → Q (k, p.receive_ann ann rel))
    (hout : ∀ (k : ASN) (p : Policy) (ro : List (ASN × List (IpNetwork × Announcement))),
      Q (k, p) → Q (k, { p with ribs_out := ro }))
    (asn : ASN) (as_obj : ASNode)
    (hpol1 : ∀ (pol : Policy) (ai : AnnInfo), Q (asn, pol) →
      validate_announcement ai.ann ai.recv_relationship as_obj = true →
      Q (asn, ribsInInsert pol ai.ann))
    (hpol2 : ∀ (pol : Policy) (ai : AnnInfo) (best0 : Announcement), Q (asn, pol) →
      validate_announcement ai.ann ai.recv_relationship as_obj = true →
      (ribsInInsert pol ai.ann).get_best_ann ai.ann.pfx as_obj = some best0 →
      Q (asn, { ribsInInsert pol ai.ann with
        local_rib := aupsert (ribsInInsert pol ai.ann).local_rib ai.ann.pfx
          (bestWithSelf asn best0) }))
    (store : PolicyStore) (ai : AnnInfo) (hs : storeAll Q store) :
    storeAll Q (processAnnInfo asn as_obj store ai) := by
  unfold processAnnInfo
  cases hl : alookup store asn with
  | none => exact hs
  | some pol =>
    show storeAll Q
      (if validate_announcement ai.ann ai.recv_relationship as_obj = true then
        match (ribsInInsert pol ai.ann).get_best_ann ai.ann.pfx as_obj with
        | some best0 => processValidBest asn as_obj store ai (ribsInInsert pol ai.ann) best0
        | none => aupsert store asn (ribsInInsert pol ai.ann)
      else store)
    by_cases hv : validate_announcement ai.ann ai.recv_relationship as_obj = true
    · rw [if_pos hv]
      have hq : Q (asn, pol) := hs _ (alookup_mem hl)
      cases hb : (ribsInInsert pol ai.ann).get_best_ann ai.ann.pfx as_obj with
      | none => exact storeAll_aupsert hs (hpol1 pol ai hq hv)
      | some best0 =>
        show storeAll Q (processValidBest asn as_obj store ai (ribsInInsert pol ai.ann) best0)
        have h2 := hpol2 pol ai best0 hq hv hb
        unfold processValidBest
        by_cases hsp : Policy.should_propagate (bestWithSelf asn best0)
            ai.recv_relationship = true
        · rw [if_pos hsp]
          exact storeAll_deliver hrecv (storeAll_aupsert hs (hout _ _ _ h2)) _
        · rw [if_neg hsp]
          exact storeAll_aupsert hs h2
    · rw [if_neg hv]
      exact hs

/-- Generic preservation through `processAS`. -/
theorem processAS_preserve {Q : ASN × Policy → Prop}
    (hdrain : ∀ k p, Q (k, p) → Q (k, { p with recv_q := [] }))
    {g : ASGraph}
    (hstep : ∀ asn as_obj, alookup g.as_dict asn = some as_obj →
      ∀ (store : PolicyStore) (ai : AnnInfo), storeAll Q store →
        storeAll Q (processAnnInfo asn as_obj store ai))
    {store : PolicyStore} (asn : ASN) (hs : storeAll Q store) :
    storeAll Q (processAS g store asn) := by
  unfold processAS
  cases hg1 : alookup g.as_dict asn with
  | none => exact hs
  | some as_obj =>
    cases hp : alookup store asn with
    | none => exact hs
    | some pol =>
      refine foldl_preserve ?_ pol.recv_q _
        (storeAll_aupsert hs (hdrain _ _ (hs _ (alookup_mem hp))))
      intro st ai h
      exact hstep asn as_obj hg1 st ai h

/-- Generic preservation through a full run. -/
theorem run_preserve {Q : ASN × Policy → Prop}
    (hdrain : ∀ k p, Q (k, p) → Q (k, { p with recv_q := [] }))
    {g : ASGraph}
    (hstep : ∀ asn as_obj, alookup g.as_dict asn = some as_obj →
      ∀ (store : PolicyStore) (ai : AnnInfo), storeAll Q store →
        storeAll Q (processAnnInfo asn as_obj store ai)) :
    ∀ (n : Nat) (store : PolicyStore), storeAll Q store →
      storeAll Q (run g store n) := by
  intro n
  induction n with
  | zero => intro store hs; exact hs
  | succ m ih =>
    intro store hs
    refine ih (propagate_round g store) ?_
    unfold propagate_round
    have hgrp : ∀ (s : PolicyStore) (grp : List ASN), storeAll Q s →
        storeAll Q (processASNs g s grp) := by
      intro s grp h
      exact foldl_preserve (fun s1 a h1 => processAS_preserve hdrain hstep a h1) grp s h
    refine foldl_preserve (fun s grp h => hgrp s grp h) _ _ ?_
    refine hgrp _ _ ?_
    exact foldl_preserve (fun s grp h => hgrp s grp h) _ _ hs

/-- Generic preservation through the seeded-announcement pass. -/
theorem propagate_seeded_preserve {Q : ASN × Policy → Prop}
    (hrecv : ∀ k p ann rel, Q (k, p) → Q (k, p.receive_ann ann rel))
    {g : ASGraph} {store : PolicyStore} (hs : storeAll Q store) :
    storeAll Q (propagate_seeded g store) := by
  unfold propagate_seeded
  refine foldl_preserve ?_ _ store hs
  intro st asn h
  cases hga : alookup g.as_dict asn with
  | none => exact h
  | some as_obj =>
    cases hpa : alookup st asn with
    | none => exact h
    | some pol => exact storeAll_deliver hrecv h _

/-- Generic preservation through `setup`. -/
theorem setup_preserve {Q : ASN × Policy → Prop}
    (hrecv : ∀ k p ann rel, Q (k, p) → Q (k, p.receive_ann ann rel))
    (hclear : ∀ k p, Q (k, p) → Q (k, clearPolicy p))
    {seeds : List (ASN × Announcement)}
    (hseed : ∀ s ∈ seeds, ∀ pol, Q (s.1, pol) → Q (s.1, pol.seed_ann s.2))
    {g : ASGraph} {store : PolicyStore} (hs : storeAll Q store) :
    storeAll Q (setup g store seeds) := by
  unfold setup
  refine propagate_seeded_preserve hrecv ?_
  refine foldl_preserve_mem _ ?_ _ ?_
  · intro st s hsm h
    cases hl : alookup st s.1 with
    | none => exact h
    | some pol => exact storeAll_aupsert h (hseed s hsm pol (h _ (alookup_mem hl)))
  · intro kp hkp
    rcases List.mem_map.mp hkp with ⟨kq, hkq, rfl⟩
    exact hclear kq.1 kq.2 (hs kq hkq)

/-- The initial store satisfies any predicate holding of fresh policies. -/
theorem engineNew_all {Q : ASN × Policy → Prop}
    (hnew : ∀ k, Q (k, Policy.new k)) (g : ASGraph) : storeAll Q (engineNew g) := by
  unfold engineNew
  refine foldl_preserve ?_ _ [] ?_
  · intro st kp h
    cases hl : alookup st kp.1 with
    | some _ => exact h
    | none =>
      intro kq hkq
      rcases List.mem_append.mp hkq with h1 | h1
      · exact h _ h1
      · rcases List.mem_singleton.mp h1 with rfl
        exact hnew kp.1
  · intro kp hkp
    exact absurd hkp (List.not_mem_nil kp)

end BGPSim

namespace BGPSim

theorem bestWithSelf_withdraw (asn : ASN) (b : Announcement) :
    (bestWithSelf asn b).withdraw = b.withdraw := by
  unfold bestWithSelf; split <;> rfl

/-- `seed_ann` of a withdrawal only removes the network from the local
RIB. -/
theorem seed_ann_withdraw_eq {pol : Policy} {a : Announcement} (hw : a.withdraw = true) :
    pol.seed_ann a = { pol with local_rib := aremove pol.local_rib a.pfx } := by
  simp [Policy.seed_ann, hw]

/-- `seed_ann` of a non-withdrawal inserts a single transformed
announcement: non-withdrawn, next hop and (if the path was empty) path set
to the seeding policy's ASN, receive relationship Origin. -/
theorem seed_ann_insert_eq (pol : Policy) {a : Announcement} (hw : a.withdraw = false) :
    ∃ e : Announcement, e.withdraw = false ∧
      e.as_path = (if a.as_path = [] then [pol.asn] else a.as_path) ∧
      e.next_hop_asn = pol.asn ∧ e.recv_relationship = Relationships.Origin ∧
      pol.seed_ann a = { pol with local_rib := aupsert pol.local_rib a.pfx e } := by
  by_cases hp : a.as_path = []
  · refine ⟨{ a with as_path := [pol.asn], next_hop_asn := pol.asn, recv_relationship := Relationships.Origin }, hw, by simp [hp], rfl, rfl, ?_⟩
    simp [Policy.seed_ann, hp, hw]
  · refine ⟨{ a with next_hop_asn := pol.asn, recv_relationship := Relationships.Origin }, hw, by simp [hp], rfl, rfl, ?_⟩
    simp [Policy.seed_ann, hp, hw]

/-- The C10 per-entry invariant: no local-RIB entry is withdrawn. -/
def noWithdrawEntry (kp : ASN × Policy) : Prop :=
  ∀ pa ∈ kp.2.local_rib, pa.2.withdraw = false

theorem noWithdraw_step (asn : ASN) (as_obj : ASNode) :
    ∀ (store : PolicyStore) (ai : AnnInfo), storeAll noWithdrawEntry store →
      storeAll noWithdrawEntry (processAnnInfo asn as_obj store ai) := by
  intro store ai hs
  refine processAnnInfo_preserve ?_ ?_ asn as_obj ?_ ?_ store ai hs
  · intro k p ann rel h; exact h
  · intro k p ro h; exact h
  · intro pol ai2 h _; exact h
  · intro pol ai2 best0 h _ hb
    intro pa hpa
    rcases mem_aupsert hpa with rfl | hpa
    · show (bestWithSelf asn best0).withdraw = false
      rw [bestWithSelf_withdraw]
      exact (mem_bestCandidates (get_best_ann_mem hb)).1
    · exact h pa hpa

theorem noWithdraw_seed : ∀ (k : ASN) (pol : Policy) (a : Announcement),
    noWithdrawEntry (k, pol) → noWithdrawEntry (k, pol.seed_ann a) := by
  intro k pol a h pa hpa
  by_cases hw : a.withdraw = true
  · rw [seed_ann_withdraw_eq hw] at hpa
    exact h pa (mem_aremove hpa)
  · rw [Bool.not_eq_true] at hw
    obtain ⟨e, hew, _, _, _, heq⟩ := seed_ann_insert_eq pol hw
    rw [heq] at hpa
    rcases mem_aupsert hpa with rfl | hpa
    · exact hew
    · exact h pa hpa

/-- C10: after any sequence of seedings and any number of propagation
rounds starting from a fresh engine, no local RIB contains a withdrawn
announcement: `seed_ann` removes the network for withdrawals and inserts
only non-withdrawn announcements, and the engine only inserts a best route
chosen by `get_best_ann_for_prefix`, which considers only candidates with
`withdraw = false`. -/
theorem c10_local_rib_no_withdrawals (g : ASGraph) (seeds : List (ASN × Announcement))
    (n : Nat) :
    ∀ kp ∈ run g (setup g (engineNew g) seeds) n, ∀ pa ∈ kp.2.local_rib,
      pa.2.withdraw = false := by
  refine run_preserve (fun k p (h : noWithdrawEntry (k, p)) => h)
    (fun a o _ => noWithdraw_step a o) n _ ?_
  refine setup_preserve (fun k p ann rel h => h) ?_ ?_ ?_
  · intro k p _ pa hpa
    exact absurd hpa (List.not_mem_nil pa)
  · intro s _ pol h
    exact noWithdraw_seed s.1 pol s.2 h
  · refine engineNew_all ?_ g
    intro k pa hpa
    exact absurd hpa (List.not_mem_nil pa)

/-- A concrete non-withdrawn seed for the C10 witness. -/
def c10Seed : Announcement := mkAnn legitimateNet [] 1 Relationships.Origin false

/-- The announcement `seed_ann` stores for `c10Seed` at AS 1. -/
def c10Stored : Announcement := mkAnn legitimateNet [1] 1 Relationships.Origin false

/-- The policy of AS 1 after seeding `c10Seed` on the one-AS graph. -/
def c10Pol : Policy :=
  { local_rib := [(legitimateNet, c10Stored)], recv_q := [], ribs_in := [],
    ribs_out := [], asn := 1 }

/-- C10 witness: the theorem applied at the one-AS graph with one seeded
announcement and zero rounds, at the concrete store entry and local-RIB
pair the computation produces. -/
theorem c10_witness :
    ((1 : ASN), c10Pol) ∈ run c2Graph (setup c2Graph (engineNew c2Graph) [(1, c10Seed)]) 0 ∧
    (legitimateNet, c10Stored) ∈ c10Pol.local_rib ∧
    c10Stored.withdraw = false :=
  ⟨by decide, by decide,
   c10_local_rib_no_withdrawals c2Graph [(1, c10Seed)] 0 ((1 : ASN), c10Pol) (by decide)
     (legitimateNet, c10Stored) (by decide)⟩

end BGPSim

namespace BGPSim

/-- A validated announcement never contains the receiving AS's ASN. -/
theorem validate_not_mem {ann : Announcement} {recv : Relationships} {as_obj : ASNode}
    (h : validate_announcement ann recv as_obj = true) : as_obj.asn ∉ ann.as_path := by
  intro hmem
  unfold validate_announcement at h
  by_cases h1 : ann.as_path = [] ∧ recv ≠ Relationships.Origin
  · rw [if_pos h1] at h
    exact Bool.false_ne_true h
  · rw [if_neg h1, if_pos hmem] at h
    exact Bool.false_ne_true h

/-- Prepending the own ASN to a path free of it yields a path headed by the
ASN and free of it in the tail. -/
theorem bestWithSelf_ok {asn : ASN} {b : Announcement} (h : asn ∉ b.as_path) :
    (bestWithSelf asn b).as_path.head? = some asn ∧
    asn ∉ (bestWithSelf asn b).as_path.tail := by
  unfold bestWithSelf
  by_cases hh : b.as_path.head? ≠ some asn
  · rw [if_pos hh]
    exact ⟨rfl, h⟩
  · rw [if_neg hh]
    push_neg at hh
    exact absurd (List.mem_of_mem_head? (Option.mem_def.mpr hh)) h

/-- The C2 per-entry invariant: the store key is the policy's ASN, every
local-RIB path starts with it and does not repeat it, and no `ribs_in`
path contains it. -/
def pathEntry (kp : ASN × Policy) : Prop :=
  kp.2.asn = kp.1 ∧
  (∀ pa ∈ kp.2.local_rib, pa.2.as_path.head? = some kp.1 ∧ kp.1 ∉ pa.2.as_path.tail) ∧
  (∀ nm ∈ kp.2.ribs_in, ∀ pa ∈ nm.2, kp.1 ∉ pa.2.as_path)

theorem pathEntry_ribsInInsert {asn : ASN} {as_obj : ASNode} (hasn : as_obj.asn = asn)
    {pol : Policy} {ai : AnnInfo} (hq : pathEntry (asn, pol))
    (hv : validate_announcement ai.ann ai.recv_relationship as_obj = true) :
    pathEntry (asn, ribsInInsert pol ai.ann) := by
  obtain ⟨hkey, hloc, hribs⟩ := hq
  refine ⟨hkey, hloc, ?_⟩
  intro nm hnm pa hpa
  simp only [ribsInInsert] at hnm
  rcases mem_aupsert hnm with rfl | hnm
  · rcases mem_aupsert hpa with rfl | hpa
    · rw [← hasn]
      exact validate_not_mem hv
    · cases hl2 : alookup pol.ribs_in ai.ann.next_hop_asn with
      | none =>
        rw [hl2] at hpa
        exact absurd hpa (List.not_mem_nil pa)
      | some m =>
        rw [hl2] at hpa
        exact hribs _ (alookup_mem hl2) pa hpa
  · exact hribs nm hnm pa hpa

theorem pathEntry_localInsert {asn : ASN} {as_obj : ASNode} (hasn : as_obj.asn = asn)
    {pol : Policy} {ai : AnnInfo} {best0 : Announcement} (hq : pathEntry (asn, pol))
    (hv : validate_announcement ai.ann ai.recv_relationship as_obj = true)
    (hb : (ribsInInsert pol ai.ann).get_best_ann ai.ann.pfx as_obj = some best0) :
    pathEntry (asn, { ribsInInsert pol ai.ann with
      local_rib := aupsert (ribsInInsert pol ai.ann).local_rib ai.ann.pfx
        (bestWithSelf asn best0) }) := by
  obtain ⟨hkey1, hloc1, hribs1⟩ := pathEntry_ribsInInsert hasn hq hv
  obtain ⟨-, nb, m, hm, hpm⟩ := mem_bestCandidates (get_best_ann_mem hb)
  have hnot : asn ∉ best0.as_path := hribs1 (nb, m) hm (ai.ann.pfx, best0) hpm
  refine ⟨hkey1, ?_, hribs1⟩
  intro pa hpa
  rcases mem_aupsert hpa with rfl | hpa
  · exact bestWithSelf_ok hnot
  · exact hloc1 pa hpa

theorem pathEntry_seed {s : ASN × Announcement}
    (hcond : s.2.as_path = [] ∨
      (s.2.as_path.head? = some s.1 ∧ s.1 ∉ s.2.as_path.tail))
    (pol : Policy) (hq : pathEntry (s.1, pol)) : pathEntry (s.1, pol.seed_ann s.2) := by
  obtain ⟨hkey, hloc, hribs⟩ := hq
  by_cases hw : s.2.withdraw = true
  · rw [seed_ann_withdraw_eq hw]
    exact ⟨hkey, fun pa hpa => hloc pa (mem_aremove hpa), hribs⟩
  · rw [Bool.not_eq_true] at hw
    obtain ⟨e, -, hepath, -, -, heq⟩ := seed_ann_insert_eq pol hw
    rw [heq]
    refine ⟨hkey, ?_, hribs⟩
    intro pa hpa
    rcases mem_aupsert hpa with rfl | hpa
    · by_cases hp : s.2.as_path = []
      · rw [if_pos hp] at hepath
        show e.as_path.head? = some s.1 ∧ s.1 ∉ e.as_path.tail
        rw [hepath, hkey]
        exact ⟨rfl, by simp⟩
      · rw [if_neg hp] at hepath
        rcases hcond with hc | hc
        · exact absurd hc hp
        · show e.as_path.head? = some s.1 ∧ s.1 ∉ e.as_path.tail
          rw [hepath]
          exact hc
    · exact hloc pa hpa

/-- C2 counterexample: the claim admits a seed whose path begins with the
seeding AS's ASN but also repeats it later; after seeding (and zero
rounds) the local RIB of AS 1 holds the path `[1, 3, 1]`, which violates
`X ∉ as_path[1..]`. -/
theorem c2_counterexample :
    c2BadAnn.as_path.head? = some 1 ∧
    ∃ kp ∈ run c2Graph (setup c2Graph (engineNew c2Graph) [(1, c2BadAnn)]) 0,
      ∃ pa ∈ kp.2.local_rib,
        ¬(pa.2.as_path.head? = some kp.1 ∧ kp.1 ∉ pa.2.as_path.tail) :=
  ⟨rfl, by decide⟩

/-- C2 (amended): if every seeded announcement has an empty AS path or an
AS path that begins with the seeding AS's ASN and does not contain that
ASN after the first position, then after any number of propagation rounds
every local-RIB entry of every AS X has X as the first path element and X
nowhere in the rest of the path. -/
theorem c2_local_rib_path_invariant (g : ASGraph)
    (hg : ∀ kp ∈ g.as_dict, kp.2.asn = kp.1)
    (seeds : List (ASN × Announcement))
    (hseeds : ∀ s ∈ seeds, s.2.as_path = [] ∨
      (s.2.as_path.head? = some s.1 ∧ s.1 ∉ s.2.as_path.tail))
    (n : Nat) :
    ∀ kp ∈ run g (setup g (engineNew g) seeds) n, ∀ pa ∈ kp.2.local_rib,
      pa.2.as_path.head? = some kp.1 ∧ kp.1 ∉ pa.2.as_path.tail := by
  have hmain : storeAll pathEntry (run g (setup g (engineNew g) seeds) n) := by
    refine run_preserve (fun k p h => h) ?_ n _ ?_
    · intro asn as_obj hga store ai hs
      have hasn : as_obj.asn = asn := hg (asn, as_obj) (alookup_mem hga)
      refine processAnnInfo_preserve (fun k p ann rel h => h) (fun k p ro h => h)
        asn as_obj ?_ ?_ store ai hs
      · intro pol ai2 hq hv
        exact pathEntry_ribsInInsert hasn hq hv
      · intro pol ai2 best0 hq hv hb
        exact pathEntry_localInsert hasn hq hv hb
    · refine setup_preserve (fun k p ann rel h => h) ?_ ?_ ?_
      · intro k p h
        exact ⟨h.1, fun pa hpa => absurd hpa (List.not_mem_nil pa),
          fun nm hnm => absurd hnm (List.not_mem_nil nm)⟩
      · intro s hsm pol hq
        exact pathEntry_seed (hseeds s hsm) pol hq
      · refine engineNew_all ?_ g
        intro k
        exact ⟨rfl, fun pa hpa => absurd hpa (List.not_mem_nil pa),
          fun nm hnm => absurd hnm (List.not_mem_nil nm)⟩
  intro kp hkp pa hpa
  exact (hmain kp hkp).2.1 pa hpa

/-- C2 witness: the amended theorem on the two-AS chain with a well-formed
seed at AS 2 and one propagation round. -/
theorem c2_witness :
    (∀ kp ∈ c2ChainGraph.as_dict, kp.2.asn = kp.1) ∧
    (∀ s ∈ [((2 : ASN), c2GoodAnn)], s.2.as_path = [] ∨
      (s.2.as_path.head? = some s.1 ∧ s.1 ∉ s.2.as_path.tail)) ∧
    (∀ kp ∈ run c2ChainGraph (setup c2ChainGraph (engineNew c2ChainGraph)
        [((2 : ASN), c2GoodAnn)]) 1,
      ∀ pa ∈ kp.2.local_rib,
        pa.2.as_path.head? = some kp.1 ∧ kp.1 ∉ pa.2.as_path.tail) :=
  ⟨by decide, by decide,
    c2_local_rib_path_invariant c2ChainGraph (by decide) [((2 : ASN), c2GoodAnn)]
      (by decide) 1⟩

end BGPSim

/-! ## Trie lemmas for the route validator -/

namespace BGPSim

/-- The ROAs stored at the nodes a trie walk along `bits` visits. -/
def ROASNode.onPath : ROASNode → List Bool → List ROA
  | .mk rs _ _, [] => rs
  | .mk rs _ r, true :: bs =>
    rs ++ (match r with
           | none => []
           | some child => ROASNode.onPath child bs)
  | .mk rs l _, false :: bs =>
    rs ++ (match l with
           | none => []
           | some child => ROASNode.onPath child bs)

theorem onPath_cons_true (rs : List ROA) (l r : Option ROASNode) (bs : List Bool) :
    (ROASNode.mk rs l r).onPath (true :: bs) =
      rs ++ (match r with | none => [] | some child => child.onPath bs) := by
  cases r <;> rfl

theorem onPath_cons_false (rs : List ROA) (l r : Option ROASNode) (bs : List Bool) :
    (ROASNode.mk rs l r).onPath (false :: bs) =
      rs ++ (match l with | none => [] | some child => child.onPath bs) := by
  cases l <;> rfl

theorem onPath_empty : ∀ bits : List Bool, ROASNode.empty.onPath bits = []
  | [] => rfl
  | true :: _ => rfl
  | false :: _ => rfl

/-- Collection is the filtration of the walk by coverage. -/
theorem collectRelevant_eq_filter (p : IpNetwork) :
    ∀ (bits : List Bool) (t : ROASNode),
      t.collectRelevant bits p = (t.onPath bits).filter (fun roa => roa.covers p) := by
  intro bits
  induction bits with
  | nil =>
    intro t
    cases t
    rfl
  | cons b bs ih =>
    intro t
    cases t with
    | mk rs l r =>
      cases b with
      | true =>
        cases r with
        | none => simp [ROASNode.collectRelevant, ROASNode.onPath]
        | some child =>
          simp [ROASNode.collectRelevant, ROASNode.onPath, List.filter_append, ih child]
      | false =>
        cases l with
        | none => simp [ROASNode.collectRelevant, ROASNode.onPath]
        | some child =>
          simp [ROASNode.collectRelevant, ROASNode.onPath, List.filter_append, ih child]

/-- Every ROA on a walk of the trie after an insertion is the inserted ROA
or was already on the walk. -/
theorem mem_onPath_insert {x a : ROA} :
    ∀ (q : List Bool) (t : ROASNode) (bits : List Bool),
      x ∈ (t.insertRoa q a).onPath bits → x = a ∨ x ∈ t.onPath bits := by
  intro q
  induction q with
  | nil =>
    intro t bits hx
    obtain ⟨rs, l, r⟩ := t
    have hroot : ∀ y : ROA, y ∈ (if a ∈ rs then rs else rs ++ [a]) → y = a ∨ y ∈ rs := by
      intro y hy
      by_cases hm : a ∈ rs
      · rw [if_pos hm] at hy; right; exact hy
      · rw [if_neg hm] at hy
        rcases List.mem_append.mp hy with h | h
        · right; exact h
        · left; exact List.mem_singleton.mp h
    cases bits with
    | nil => exact hroot x hx
    | cons b bs =>
      cases b with
      | true =>
        rw [show (ROASNode.mk rs l r).insertRoa [] a =
            ROASNode.mk (if a ∈ rs then rs else rs ++ [a]) l r from rfl,
          onPath_cons_true] at hx
        rcases List.mem_append.mp hx with h | h
        · rcases hroot x h with h1 | h1
          · left; exact h1
          · right; rw [onPath_cons_true]; exact List.mem_append.mpr (Or.inl h1)
        · right; rw [onPath_cons_true]; exact List.mem_append.mpr (Or.inr h)
      | false =>
        rw [show (ROASNode.mk rs l r).insertRoa [] a =
            ROASNode.mk (if a ∈ rs then rs else rs ++ [a]) l r from rfl,
          onPath_cons_false] at hx
        rcases List.mem_append.mp hx with h | h
        · rcases hroot x h with h1 | h1
          · left; exact h1
          · right; rw [onPath_cons_false]; exact List.mem_append.mpr (Or.inl h1)
        · right; rw [onPath_cons_false]; exact List.mem_append.mpr (Or.inr h)
  | cons qb qs ih =>
    intro t bits hx
    obtain ⟨rs, l, r⟩ := t
    cases qb with
    | true =>
      cases bits with
      | nil => right; exact hx
      | cons b bs =>
        cases b with
        | true =>
          rw [show (ROASNode.mk rs l r).insertRoa (true :: qs) a =
              ROASNode.mk rs l (some ((r.getD ROASNode.empty).insertRoa qs a)) from rfl,
            onPath_cons_true] at hx
          rw [onPath_cons_true]
          rcases List.mem_append.mp hx with h | h
          · right; exact List.mem_append.mpr (Or.inl h)
          · rcases ih _ bs h with h2 | h2
            · left; exact h2
            · cases r with
              | none =>
                have h3 : x ∈ ROASNode.empty.onPath bs := h2
                rw [onPath_empty] at h3
                exact absurd h3 (List.not_mem_nil x)
              | some child => right; exact List.mem_append.mpr (Or.inr h2)
        | false =>
          rw [show (ROASNode.mk rs l r).insertRoa (true :: qs) a =
              ROASNode.mk rs l (some ((r.getD ROASNode.empty).insertRoa qs a)) from rfl,
            onPath_cons_false] at hx
          rw [onPath_cons_false]
          right
          exact hx
    | false =>
      cases bits with
      | nil => right; exact hx
      | cons b bs =>
        cases b with
        | true =>
          rw [show (ROASNode.mk rs l r).insertRoa (false :: qs) a =
              ROASNode.mk rs (some ((l.getD ROASNode.empty).insertRoa qs a)) r from rfl,
            onPath_cons_true] at hx
          rw [onPath_cons_true]
          right
          exact hx
        | false =>
          rw [show (ROASNode.mk rs l r).insertRoa (false :: qs) a =
              ROASNode.mk rs (some ((l.getD ROASNode.empty).insertRoa qs a)) r from rfl,
            onPath_cons_false] at hx
          rw [onPath_cons_false]
          rcases List.mem_append.mp hx with h | h
          · right; exact List.mem_append.mpr (Or.inl h)
          · rcases ih _ bs h with h2 | h2
            · left; exact h2
            · cases l with
              | none =>
                have h3 : x ∈ ROASNode.empty.onPath bs := h2
                rw [onPath_empty] at h3
                exact absurd h3 (List.not_mem_nil x)
              | some child => right; exact List.mem_append.mpr (Or.inr h2)

/-- Insertion never removes a ROA from a walk. -/
theorem mem_onPath_insert_mono {x a : ROA} :
    ∀ (q : List Bool) (t : ROASNode) (bits : List Bool),
      x ∈ t.onPath bits → x ∈ (t.insertRoa q a).onPath bits := by
  intro q
  induction q with
  | nil =>
    intro t bits hx
    obtain ⟨rs, l, r⟩ := t
    have hroot : ∀ y : ROA, y ∈ rs → y ∈ (if a ∈ rs then rs else rs ++ [a]) := by
      intro y hy
      by_cases hm : a ∈ rs
      · rw [if_pos hm]; exact hy
      · rw [if_neg hm]; exact List.mem_append.mpr (Or.inl hy)
    cases bits with
    | nil => exact hroot x hx
    | cons b bs =>
      cases b with
      | true =>
        rw [onPath_cons_true] at hx
        rw [show (ROASNode.mk rs l r).insertRoa [] a =
            ROASNode.mk (if a ∈ rs then rs else rs ++ [a]) l r from rfl,
          onPath_cons_true]
        rcases List.mem_append.mp hx with h | h
        · exact List.mem_append.mpr (Or.inl (hroot x h))
        · exact List.mem_append.mpr (Or.inr h)
      | false =>
        rw [onPath_cons_false] at hx
        rw [show (ROASNode.mk rs l r).insertRoa [] a =
            ROASNode.mk (if a ∈ rs then rs else rs ++ [a]) l r from rfl,
          onPath_cons_false]
        rcases List.mem_append.mp hx with h | h
        · exact List.mem_append.mpr (Or.inl (hroot x h))
        · exact List.mem_append.mpr (Or.inr h)
  | cons qb qs ih =>
    intro t bits hx
    obtain ⟨rs, l, r⟩ := t
    cases qb with
    | true =>
      cases bits with
      | nil => exact hx
      | cons b bs =>
        cases b with
        | true =>
          rw [onPath_cons_true] at hx
          rw [show (ROASNode.mk rs l r).insertRoa (true :: qs) a =
              ROASNode.mk rs l (some ((r.getD ROASNode.empty).insertRoa qs a)) from rfl,
            onPath_cons_true]
          rcases List.mem_append.mp hx with h | h
          · exact List.mem_append.mpr (Or.inl h)
          · cases r with
            | none => exact absurd h (List.not_mem_nil x)
            | some child => exact List.mem_append.mpr (Or.inr (ih child bs h))
        | false =>
          rw [onPath_cons_false] at hx
          rw [show (ROASNode.mk rs l r).insertRoa (true :: qs) a =
              ROASNode.mk rs l (some ((r.getD ROASNode.empty).insertRoa qs a)) from rfl,
            onPath_cons_false]
          exact hx
    | false =>
      cases bits with
      | nil => exact hx
      | cons b bs =>
        cases b with
        | true =>
          rw [onPath_cons_true] at hx
          rw [show (ROASNode.mk rs l r).insertRoa (false :: qs) a =
              ROASNode.mk rs (some ((l.getD ROASNode.empty).insertRoa qs a)) r from rfl,
            onPath_cons_true]
          exact hx
        | false =>
          rw [onPath_cons_false] at hx
          rw [show (ROASNode.mk rs l r).insertRoa (false :: qs) a =
              ROASNode.mk rs (some ((l.getD ROASNode.empty).insertRoa qs a)) r from rfl,
            onPath_cons_false]
          rcases List.mem_append.mp hx with h | h
          · exact List.mem_append.mpr (Or.inl h)
          · cases l with
            | none => exact absurd h (List.not_mem_nil x)
            | some child => exact List.mem_append.mpr (Or.inr (ih child bs h))

/-- An inserted ROA appears on every walk whose path extends the insertion
path. -/
theorem mem_onPath_insert_self {a : ROA} :
    ∀ (q suffix : List Bool) (t : ROASNode),
      a ∈ (t.insertRoa q a).onPath (q ++ suffix) := by
  intro q
  induction q with
  | nil =>
    intro suffix t
    obtain ⟨rs, l, r⟩ := t
    have hroot : a ∈ (if a ∈ rs then rs else rs ++ [a]) := by
      by_cases hm : a ∈ rs
      · rw [if_pos hm]; exact hm
      · rw [if_neg hm]; exact List.mem_append.mpr (Or.inr (List.mem_singleton.mpr rfl))
    cases suffix with
    | nil => exact hroot
    | cons b bs =>
      cases b with
      | true =>
        rw [show (ROASNode.mk rs l r).insertRoa [] a =
            ROASNode.mk (if a ∈ rs then rs else rs ++ [a]) l r from rfl]
        rw [show ([] : List Bool) ++ true :: bs = true :: bs from rfl, onPath_cons_true]
        exact List.mem_append.mpr (Or.inl hroot)
      | false =>
        rw [show (ROASNode.mk rs l r).insertRoa [] a =
            ROASNode.mk (if a ∈ rs then rs else rs ++ [a]) l r from rfl]
        rw [show ([] : List Bool) ++ false :: bs = false :: bs from rfl, onPath_cons_false]
        exact List.mem_append.mpr (Or.inl hroot)
  | cons qb qs ih =>
    intro suffix t
    obtain ⟨rs, l, r⟩ := t
    cases qb with
    | true =>
      rw [show (ROASNode.mk rs l r).insertRoa (true :: qs) a =
          ROASNode.mk rs l (some ((r.getD ROASNode.empty).insertRoa qs a)) from rfl]
      rw [show (true :: qs) ++ suffix = true :: (qs ++ suffix) from rfl, onPath_cons_true]
      exact List.mem_append.mpr (Or.inr (ih suffix (r.getD ROASNode.empty)))
    | false =>
      rw [show (ROASNode.mk rs l r).insertRoa (false :: qs) a =
          ROASNode.mk rs (some ((l.getD ROASNode.empty).insertRoa qs a)) r from rfl]
      rw [show (false :: qs) ++ suffix = false :: (qs ++ suffix) from rfl, onPath_cons_false]
      exact List.mem_append.mpr (Or.inr (ih suffix (l.getD ROASNode.empty)))

/-- Soundness of the built validator: everything on a walk was inserted. -/
theorem mem_onPath_foldl {x : ROA} :
    ∀ (rs : List ROA) (t : ROASNode) (bits : List Bool),
      x ∈ (rs.foldl (fun t roa => t.insertRoa roa.pfx.bits roa) t).onPath bits →
      x ∈ rs ∨ x ∈ t.onPath bits := by
  intro rs
  induction rs with
  | nil =>
    intro t bits h
    right
    exact h
  | cons y ys ih =>
    intro t bits h
    rcases ih _ bits h with h1 | h1
    · left; exact List.mem_cons_of_mem _ h1
    · rcases mem_onPath_insert _ _ _ h1 with rfl | h2
      · left; exact List.mem_cons_self _ _
      · right; exact h2

theorem mem_onPath_foldl_mono {x : ROA} :
    ∀ (rs : List ROA) (t : ROASNode) (bits : List Bool),
      x ∈ t.onPath bits →
      x ∈ (rs.foldl (fun t roa => t.insertRoa roa.pfx.bits roa) t).onPath bits := by
  intro rs
  induction rs with
  | nil => intro t bits h; exact h
  | cons y ys ih =>
    intro t bits h
    exact ih _ bits (mem_onPath_insert_mono _ _ _ h)

/-- Completeness of the built validator: an inserted ROA is on every walk
extending its path. -/
theorem mem_onPath_foldl_self {x : ROA} {suffix : List Bool} :
    ∀ (rs : List ROA) (t : ROASNode), x ∈ rs →
      x ∈ (rs.foldl (fun t roa => t.insertRoa roa.pfx.bits roa) t).onPath
        (x.pfx.bits ++ suffix) := by
  intro rs
  induction rs with
  | nil => intro t h; exact absurd h (List.not_mem_nil x)
  | cons y ys ih =>
    intro t h
    rcases List.mem_cons.mp h with rfl | h2
    · exact mem_onPath_foldl_mono ys _ _ (mem_onPath_insert_self _ _ t)
    · exact ih _ h2

end BGPSim

namespace BGPSim

theorem take_ipBits (a w : Nat) {m n : Nat} (h : m ≤ n) :
    (ipBits a w n).take m = ipBits a w m := by
  unfold ipBits
  rw [← List.map_take, List.take_range, Nat.min_eq_left h]

/-- A covering ROA's binary key is an initial segment of the target's
binary key. -/
theorem covers_bits {roa : ROA} {p : IpNetwork} (h : roa.covers p = true) :
    ∃ suffix, p.bits = roa.pfx.bits ++ suffix := by
  unfold ROA.covers at h
  cases hr : roa.pfx with
  | V4 ra rl =>
    cases hp2 : p with
    | V4 pa pl =>
      simp only [hr, hp2, Bool.and_eq_true, decide_eq_true_eq] at h
      obtain ⟨heq, hle⟩ := h
      refine ⟨(ipBits pa 32 pl).drop rl, ?_⟩
      show ipBits pa 32 pl = ipBits ra 32 rl ++ (ipBits pa 32 pl).drop rl
      conv_lhs => rw [← List.take_append_drop rl (ipBits pa 32 pl)]
      rw [take_ipBits pa 32 hle, heq]
    | V6 pa pl =>
      simp only [hr, hp2] at h
      exact absurd h Bool.false_ne_true
  | V6 ra rl =>
    cases hp2 : p with
    | V4 pa pl =>
      simp only [hr, hp2] at h
      exact absurd h Bool.false_ne_true
    | V6 pa pl =>
      simp only [hr, hp2, Bool.and_eq_true, decide_eq_true_eq] at h
      obtain ⟨heq, hle⟩ := h
      refine ⟨(ipBits pa 128 pl).drop rl, ?_⟩
      show ipBits pa 128 pl = ipBits ra 128 rl ++ (ipBits pa 128 pl).drop rl
      conv_lhs => rw [← List.take_append_drop rl (ipBits pa 128 pl)]
      rw [take_ipBits pa 128 hle, heq]

/-- The collected ROAs of the validator built from `rs` are exactly the
inserted ROAs that cover the target. -/
theorem mem_collect_validatorOf {rs : List ROA} {p : IpNetwork} {x : ROA} :
    x ∈ (validatorOf rs).collectRelevant p.bits p ↔ x ∈ rs ∧ x.covers p = true := by
  rw [collectRelevant_eq_filter, List.mem_filter]
  constructor
  · rintro ⟨honp, hcov⟩
    refine ⟨?_, hcov⟩
    rcases mem_onPath_foldl rs ROASNode.empty p.bits honp with h | h
    · exact h
    · rw [onPath_empty] at h
      exact absurd h (List.not_mem_nil x)
  · rintro ⟨hmem, hcov⟩
    refine ⟨?_, hcov⟩
    obtain ⟨suffix, hsuf⟩ := covers_bits hcov
    rw [hsuf]
    exact mem_onPath_foldl_self rs ROASNode.empty hmem

/-- The first element of the stably sorted outcome list is an element of
minimal validity ordinal. -/
theorem headD_mergeSort_min (l : List (ROAValidity × ROARouted)) (hne : l ≠ []) :
    (l.mergeSort (fun a b => decide (a.1.ord ≤ b.1.ord))).headD
        (ROAValidity.Unknown, ROARouted.Unknown) ∈ l ∧
    ∀ y ∈ l, ((l.mergeSort (fun a b => decide (a.1.ord ≤ b.1.ord))).headD
        (ROAValidity.Unknown, ROARouted.Unknown)).1.ord ≤ y.1.ord := by
  have hperm := List.mergeSort_perm l (fun a b => decide (a.1.ord ≤ b.1.ord))
  have hsne : l.mergeSort (fun a b => decide (a.1.ord ≤ b.1.ord)) ≠ [] := by
    intro hnil
    rw [hnil] at hperm
    exact hne hperm.symm.eq_nil
  obtain ⟨hd, tl, hs⟩ := List.exists_cons_of_ne_nil hsne
  have hsorted := @List.sorted_mergeSort (ROAValidity × ROARouted)
    (fun a b => decide (a.1.ord ≤ b.1.ord))
    (by intro a b c h1 h2; rw [decide_eq_true_eq] at h1 h2 ⊢; omega)
    (by intro a b
        rcases Nat.le_total a.1.ord b.1.ord with h | h <;> simp [h]) l
  rw [hs] at hsorted hperm
  rw [hs]
  constructor
  · exact hperm.mem_iff.mp (List.mem_cons_self hd tl)
  · intro y hy
    have hy2 : y ∈ hd :: tl := hperm.mem_iff.mpr hy
    rcases List.mem_cons.mp hy2 with rfl | hy3
    · exact Nat.le_refl _
    · have := (List.pairwise_cons.mp hsorted).1 y hy3
      rw [decide_eq_true_eq] at this
      exact this

/-- C4: `get_roa_outcome` returns `(Unknown, Unknown)` when no stored ROA
covers the queried network, and otherwise the outcome of a covering ROA of
minimal validity in the order
Valid < Unknown < InvalidLength < InvalidOrigin < InvalidLengthAndOrigin. -/
theorem c4_roa_outcome (roas : List ROA) (p : IpNetwork) (o : ASN) :
    ((∀ r ∈ roas, r.covers p = false) →
      get_roa_outcome (validatorOf roas) p o = (ROAValidity.Unknown, ROARouted.Unknown)) ∧
    ((∃ r ∈ roas, r.covers p = true) →
      ∃ r ∈ roas, r.covers p = true ∧
        get_roa_outcome (validatorOf roas) p o = r.get_outcome p o ∧
        ∀ q ∈ roas, q.covers p = true →
          (r.get_validity p o).ord ≤ (q.get_validity p o).ord) := by
  constructor
  · intro hnone
    have hemp : (validatorOf roas).collectRelevant p.bits p = [] := by
      rw [List.eq_nil_iff_forall_not_mem]
      intro x hx
      rcases mem_collect_validatorOf.mp hx with ⟨hm, hc⟩
      rw [hnone x hm] at hc
      exact Bool.false_ne_true hc
    simp [get_roa_outcome, hemp]
  · rintro ⟨r0, hr0, hc0⟩
    have hrel : r0 ∈ (validatorOf roas).collectRelevant p.bits p :=
      mem_collect_validatorOf.mpr ⟨hr0, hc0⟩
    have hne : (validatorOf roas).collectRelevant p.bits p ≠ [] := by
      intro hnil
      rw [hnil] at hrel
      exact absurd hrel (List.not_mem_nil r0)
    have houtne : ((validatorOf roas).collectRelevant p.bits p).map
        (fun roa => roa.get_outcome p o) ≠ [] := by
      simpa using hne
    have hout : get_roa_outcome (validatorOf roas) p o =
        (((((validatorOf roas).collectRelevant p.bits p).map
            (fun roa => roa.get_outcome p o)).mergeSort
          (fun a b => decide (a.1.ord ≤ b.1.ord))).headD
          (ROAValidity.Unknown, ROARouted.Unknown)) := by
      unfold get_roa_outcome
      rw [if_neg (by simpa using hne)]
    obtain ⟨hmem, hmin⟩ := headD_mergeSort_min
      (((validatorOf roas).collectRelevant p.bits p).map (fun roa => roa.get_outcome p o))
      houtne
    rcases List.mem_map.mp hmem with ⟨r, hrmem, hreq⟩
    rcases mem_collect_validatorOf.mp hrmem with ⟨hrs, hrc⟩
    refine ⟨r, hrs, hrc, ?_, ?_⟩
    · rw [hout]
      exact hreq.symm
    · intro q hq hqc
      have hqout : q.get_outcome p o ∈
          ((validatorOf roas).collectRelevant p.bits p).map
            (fun roa => roa.get_outcome p o) :=
        List.mem_map_of_mem _ (mem_collect_validatorOf.mpr ⟨hq, hqc⟩)
      have hle := hmin (q.get_outcome p o) hqout
      rw [← hreq] at hle
      exact hle

/-- C4 witness: both conjuncts applied at concrete inputs — the empty ROA
store, and the store holding the single ROA 10.0.0.0/24 (origin 777,
max length 24) queried at the subprefix 10.0.0.0/25 with origin 666. -/
theorem c4_witness :
    (get_roa_outcome (validatorOf []) legitimateNet 5 =
      (ROAValidity.Unknown, ROARouted.Unknown)) ∧
    ∃ r ∈ [c4Roa], r.covers c4SubNet = true ∧
      get_roa_outcome (validatorOf [c4Roa]) c4SubNet 666 = r.get_outcome c4SubNet 666 ∧
      ∀ q ∈ [c4Roa], q.covers c4SubNet = true →
        (r.get_validity c4SubNet 666).ord ≤ (q.get_validity c4SubNet 666).ord :=
  ⟨(c4_roa_outcome [] legitimateNet 5).1 (by intro r hr; exact absurd hr (List.not_mem_nil r)),
   (c4_roa_outcome [c4Roa] c4SubNet 666).2 ⟨c4Roa, List.mem_singleton.mpr rfl, by decide⟩⟩

end BGPSim
